import Mathlib

/-!
Verification of openapi-fuzzer (src/main.rs plus the spec-described fuzzer
core) against its natural-language specification.  Strings are modelled as
lists of characters so that the splitting and case-normalisation done by the
command-line parsers can be reasoned about directly.
-/

namespace OpenapiFuzzer

/-- A string, modelled as a list of characters. -/
abbrev Str := List Char

/-- Character-wise lower-casing, modelling Rust's `str::to_lowercase` on the
header key. -/
def toLowerStr (s : Str) : Str := s.map Char.toLower

/-- Model of `s.splitn(2, ':')` restricted to the successful case:
returns `some (before, after)` when the input contains a colon, splitting at
the first one, and `none` otherwise (Rust returns a single-element vector in
that case, which `Header::from_str` rejects). -/
def splitn2Colon : Str → Option (Str × Str)
  | [] => none
  | c :: rest =>
      if c = ':' then some ([], rest)
      else
        match splitn2Colon rest with
        | some (a, b) => some (c :: a, b)
        | none => none

/-- Embedding of `Header::from_str` (src/main.rs lines 89-102): split at the
first colon, reject inputs without one, lower-case the key, keep the value
verbatim. -/
def headerFromStr (s : Str) : Option (Str × Str) :=
  match splitn2Colon s with
  | some (k, v) => some (toLowerStr k, v)
  | none => none

/-- Embedding of `UrlWithTrailingSlash::from_str` (src/main.rs lines
113-123), parameterised by the external `Url::from_str` parser: if the input
ends with `'/'` it is parsed as is, otherwise a `'/'` is appended first. -/
def urlWithTrailingSlash {U : Type} (parse : Str → Option U) (s : Str) :
    Option U :=
  if s.getLast? = some '/' then parse s else parse (s ++ ['/'])

/- ### Lemmas about colon splitting -/

theorem splitn2Colon_eq_some (s : Str) (a b : Str)
    (h : splitn2Colon s = some (a, b)) :
    a = s.takeWhile (fun c => c ≠ ':') ∧
      s = s.takeWhile (fun c => c ≠ ':') ++ ':' :: b := by
  induction s generalizing a b with
  | nil => simp [splitn2Colon] at h
  | cons c rest ih =>
      by_cases hc : c = ':'
      · subst hc
        simp [splitn2Colon] at h
        obtain ⟨ha, hb⟩ := h
        subst ha; subst hb
        constructor
        · simp [List.takeWhile]
        · simp [List.takeWhile]
      · simp [splitn2Colon, hc] at h
        match hrec : splitn2Colon rest with
        | some (a', b') =>
            rw [hrec] at h
            simp at h
            obtain ⟨ha, hb⟩ := h
            obtain ⟨iha, ihb⟩ := ih a' b' hrec
            subst hb
            constructor
            · rw [← ha, iha]
              simp [List.takeWhile, hc]
            · conv_lhs => rw [ihb]
              simp [List.takeWhile, hc]
        | none => rw [hrec] at h; simp at h

theorem splitn2Colon_isSome_iff (s : Str) :
    (splitn2Colon s).isSome = true ↔ ':' ∈ s := by
  induction s with
  | nil => simp [splitn2Colon]
  | cons c rest ih =>
      by_cases hc : c = ':'
      · subst hc; simp [splitn2Colon]
      · simp only [splitn2Colon, if_neg hc]
        match hrec : splitn2Colon rest with
        | some (a, b) =>
            simp only [hrec] at ih ⊢
            simp at ih ⊢
            exact Or.inr ih
        | none =>
            rw [hrec] at ih
            show (none : Option (Str × Str)).isSome = true ↔ ':' ∈ c :: rest
            constructor
            · intro h; simp at h
            · intro h
              rcases List.mem_cons.mp h with h | h
              · exact absurd h.symm hc
              · simpa using ih.mpr h

/- ### Claims about the command-line parsers (src/main.rs) -/

/-- C6: every caller-supplied fixed header is stored with a lower-cased key:
whenever `Header::from_str` accepts an input, the resulting key is the
lower-casing of the text before the first colon. -/
theorem c6_header_key_lowercased (s k v : Str)
    (h : headerFromStr s = some (k, v)) :
    k = toLowerStr (s.takeWhile (fun c => c ≠ ':')) := by
  unfold headerFromStr at h
  match hs : splitn2Colon s with
  | some (a, b) =>
      rw [hs] at h
      simp at h
      rw [← h.1, (splitn2Colon_eq_some s a b hs).1]
  | none => rw [hs] at h; simp at h

/-- Witness for C6 at the concrete header argument `"X:Y"`. -/
theorem c6_header_key_lowercased_witness :
    headerFromStr ['X', ':', 'Y'] = some (['x'], ['Y']) ∧
      ['x'] = toLowerStr ((['X', ':', 'Y'] : Str).takeWhile (fun c => c ≠ ':')) :=
  ⟨by decide, c6_header_key_lowercased ['X', ':', 'Y'] ['x'] ['Y'] (by decide)⟩

/-- C9: `Header::from_str` errors exactly when the input has no colon; on any
input with a colon it succeeds, splitting at the first colon only, lower-casing
the key and keeping the value verbatim (the decomposition
`s = prefixPart ++ ':' :: v` shows the value is the untouched remainder, colons
and case included). -/
theorem c9_header_parse_colon_split (s : Str) :
    ((headerFromStr s).isSome = true ↔ ':' ∈ s) ∧
      (∀ k v, headerFromStr s = some (k, v) →
        k = toLowerStr (s.takeWhile (fun c => c ≠ ':')) ∧
          s = s.takeWhile (fun c => c ≠ ':') ++ ':' :: v) := by
  constructor
  · have hsome : (headerFromStr s).isSome = (splitn2Colon s).isSome := by
      unfold headerFromStr
      match hs : splitn2Colon s with
      | some (a, b) => simp
      | none => simp
    rw [hsome]
    exact splitn2Colon_isSome_iff s
  · intro k v h
    unfold headerFromStr at h
    match hs : splitn2Colon s with
    | some (a, b) =>
        rw [hs] at h
        simp at h
        obtain ⟨hab1, hab2⟩ := splitn2Colon_eq_some s a b hs
        refine ⟨by rw [← h.1, hab1], ?_⟩
        rw [← h.2]
        exact hab2
    | none => rw [hs] at h; simp at h

/-- Witness for C9 at the concrete header argument `"A:b:C"`: the key is
lower-cased and the value `"b:C"` keeps its colon and its case. -/
theorem c9_header_parse_colon_split_witness :
    (['a'] : Str) =
        toLowerStr ((['A', ':', 'b', ':', 'C'] : Str).takeWhile (fun c => c ≠ ':')) ∧
      (['A', ':', 'b', ':', 'C'] : Str) =
        (['A', ':', 'b', ':', 'C'] : Str).takeWhile (fun c => c ≠ ':') ++
          ':' :: ['b', ':', 'C'] :=
  (c9_header_parse_colon_split ['A', ':', 'b', ':', 'C']).2 ['a'] ['b', ':', 'C']
    (by decide)

/-- C7: `UrlWithTrailingSlash::from_str` is trailing-slash normalisation: an
input already ending in `'/'` is parsed as is, any other input is parsed with
`'/'` appended, and consequently every accepted URL is the parse of a string
ending in `'/'`. -/
theorem c7_url_trailing_slash {U : Type} (parse : Str → Option U) (s : Str) :
    urlWithTrailingSlash parse s =
        (if s.getLast? = some '/' then parse s else parse (s ++ ['/'])) ∧
      (∀ u, urlWithTrailingSlash parse s = some u →
        ∃ t, t.getLast? = some '/' ∧ parse t = some u ∧
          (t = s ∨ t = s ++ ['/'])) := by
  refine ⟨rfl, ?_⟩
  intro u hu
  unfold urlWithTrailingSlash at hu
  by_cases hend : s.getLast? = some '/'
  · rw [if_pos hend] at hu
    exact ⟨s, hend, hu, Or.inl rfl⟩
  · rw [if_neg hend] at hu
    exact ⟨s ++ ['/'], List.getLast?_concat s, hu, Or.inr rfl⟩

/-- Witness for C7 at the identity parser and the concrete input `"a"`: the
accepted URL is parsed from `"a/"`, which ends in a slash. -/
theorem c7_url_trailing_slash_witness :
    ∃ t : Str, t.getLast? = some '/' ∧
      (fun x : Str => some x) t = some (['a', '/'] : Str) ∧
      (t = ['a'] ∨ t = ['a'] ++ ['/']) :=
  (c7_url_trailing_slash (fun x : Str => some x) ['a']).2 ['a', '/'] (by decide)

/- ### The finding record and its persisted form -/

/-- HTTP method of an operation, as carried by a `FuzzResult`. -/
inductive Method where
  | get
  | post
  | put
  | delete
  | patch
  | head
  | options
  | trace
deriving DecidableEq

/-- Modelled from the spec: the payload of a `FuzzResult` (fuzzer.rs is not
under src/) "captures all values needed to rebuild path/query/header/body
exactly". -/
structure Payload where
  pathParams : List (Str × Str)
  queryParams : List (Str × Str)
  headerParams : List (Str × Str)
  body : Str
deriving DecidableEq

/-- Modelled from the spec: "FuzzResult: durable finding record — operation
path template, method, and the exact payload sent". Its fields match the uses
`result.path`, `result.method`, `result.payload` in src/main.rs lines
162-164. -/
structure FuzzResult where
  path : Str
  method : Method
  payload : Payload
deriving DecidableEq

/-- JSON value tree, the persisted representation written by the result
store. -/
inductive Json where
  | nullJ
  | strJ (s : Str)
  | arrJ (items : List Json)
  | objJ (fields : List (Str × Json))

def strOfMethod : Method → Str
  | .get => ['G', 'E', 'T']
  | .post => ['P', 'O', 'S', 'T']
  | .put => ['P', 'U', 'T']
  | .delete => ['D', 'E', 'L', 'E', 'T', 'E']
  | .patch => ['P', 'A', 'T', 'C', 'H']
  | .head => ['H', 'E', 'A', 'D']
  | .options => ['O', 'P', 'T', 'I', 'O', 'N', 'S']
  | .trace => ['T', 'R', 'A', 'C', 'E']

def methodOfStr (s : Str) : Option Method :=
  if s = strOfMethod .get then some .get
  else if s = strOfMethod .post then some .post
  else if s = strOfMethod .put then some .put
  else if s = strOfMethod .delete then some .delete
  else if s = strOfMethod .patch then some .patch
  else if s = strOfMethod .head then some .head
  else if s = strOfMethod .options then some .options
  else if s = strOfMethod .trace then some .trace
  else none

/-- One key/value pair of the payload, encoded as a two-element JSON array. -/
def encodePair (p : Str × Str) : Json := .arrJ [.strJ p.1, .strJ p.2]

def decodePair : Json → Option (Str × Str)
  | .arrJ [.strJ k, .strJ v] => some (k, v)
  | _ => none

def decodePairList : List Json → Option (List (Str × Str))
  | [] => some []
  | j :: rest =>
      match decodePair j, decodePairList rest with
      | some p, some ps => some (p :: ps)
      | _, _ => none

def encodePairs (l : List (Str × Str)) : Json := .arrJ (l.map encodePair)

def decodePairs : Json → Option (List (Str × Str))
  | .arrJ items => decodePairList items
  | _ => none

def keyPath : Str := ['p', 'a', 't', 'h']
def keyMethod : Str := ['m', 'e', 't', 'h', 'o', 'd']
def keyPathParams : Str := ['p', 'a', 't', 'h', 'P']
def keyQueryParams : Str := ['q', 'u', 'e', 'r', 'y', 'P']
def keyHeaderParams : Str := ['h', 'e', 'a', 'd', 'e', 'r', 'P']
def keyBody : Str := ['b', 'o', 'd', 'y']

/-- Modelled from the spec: `ResultStore.save` (fuzzer.rs is not under src/),
"a self-describing record of \x7bpath template, method, payload\x7d". -/
def saveResult (r : FuzzResult) : Json :=
  .objJ [(keyPath, .strJ r.path),
         (keyMethod, .strJ (strOfMethod r.method)),
         (keyPathParams, encodePairs r.payload.pathParams),
         (keyQueryParams, encodePairs r.payload.queryParams),
         (keyHeaderParams, encodePairs r.payload.headerParams),
         (keyBody, .strJ r.payload.body)]

/-- First JSON value stored under the given key, if any. -/
def lookupField : List (Str × Json) → Str → Option Json
  | [], _ => none
  | (k, j) :: rest, key => if k = key then some j else lookupField rest key

/-- Modelled from the spec: `ResultStore.load` — "load must reconstruct enough
information for an exact replay"; field lookup mirrors serde deserialization
into the `FuzzResult` struct. -/
def loadResult : Json → Option FuzzResult
  | .objJ fields =>
      match lookupField fields keyPath, lookupField fields keyMethod,
            lookupField fields keyPathParams, lookupField fields keyQueryParams,
            lookupField fields keyHeaderParams, lookupField fields keyBody with
      | some (.strJ p), some (.strJ ms), some jpp, some jqp, some jhp,
          some (.strJ b) =>
          match methodOfStr ms, decodePairs jpp, decodePairs jqp,
                decodePairs jhp with
          | some m, some pp, some qp, some hp =>
              some ⟨p, m, ⟨pp, qp, hp, b⟩⟩
          | _, _, _, _ => none
      | _, _, _, _, _, _ => none
  | _ => none

/- ### The request builder -/

/-- A fully built HTTP request: method, URL (base, substituted path, query
string), merged headers, body. -/
structure Request where
  method : Method
  url : Str
  headers : List (Str × Str)
  body : Str
deriving DecidableEq

def lbrace : Char := Char.ofNat 123
def rbrace : Char := Char.ofNat 125

/-- Modelled from the spec: the RequestBuilder "substitutes sampled
path-parameter values into the path template" — each `\x7bname\x7d` is
replaced by the recorded value for `name`. -/
def renderPath (tmpl : Str) (ps : List (Str × Str)) : Str :=
  match tmpl with
  | [] => []
  | c :: rest =>
      if c = lbrace then
        let name := rest.takeWhile (fun d => d ≠ rbrace)
        let rest' := (rest.dropWhile (fun d => d ≠ rbrace)).drop 1
        (match ps.lookup name with
         | some v => v
         | none => []) ++ renderPath rest' ps
      else c :: renderPath rest ps
termination_by tmpl.length
decreasing_by
  · have h1 := (List.dropWhile_sublist (l := rest)
      (p := fun d => decide (d ≠ rbrace))).length_le
    have h2 := List.length_drop 1 (rest.dropWhile (fun d => d ≠ rbrace))
    simp only [List.length_cons]
    omega
  · simp only [List.length_cons]
    omega

/-- Modelled from the spec: the RequestBuilder "appends sampled query
parameters". -/
def renderQuery (qs : List (Str × Str)) : Str :=
  match qs with
  | [] => []
  | (k, v) :: rest =>
      '?' :: (k ++ '=' :: v) ++
        rest.foldl (fun acc p => acc ++ '&' :: (p.1 ++ '=' :: p.2)) []

/-- Modelled from the spec: the RequestBuilder "merges sampled header values
with caller-fixed headers (fixed headers win on key collision)". -/
def mergeHeaders (sampled fixed : List (Str × Str)) : List (Str × Str) :=
  fixed ++ sampled.filter (fun p => (fixed.lookup p.1).isNone)

/-- Modelled from the spec: the RequestBuilder — "given an operation and
sampled values, produce (method, URL, headers, body)"; a pure function of its
inputs. -/
def buildRequest (url : Str) (path : Str) (m : Method) (p : Payload)
    (fixed : List (Str × Str)) : Request :=
  { method := m
    url := url ++ renderPath path p.pathParams ++ renderQuery p.queryParams
    headers := mergeHeaders p.headerParams fixed
    body := p.body }

/- ### Round-trip lemmas for the result store -/

theorem decodePair_encodePair (p : Str × Str) :
    decodePair (encodePair p) = some p := rfl

theorem decodePairList_map_encodePair (l : List (Str × Str)) :
    decodePairList (l.map encodePair) = some l := by
  induction l with
  | nil => rfl
  | cons p rest ih => simp [decodePairList, decodePair_encodePair, ih]

theorem decodePairs_encodePairs (l : List (Str × Str)) :
    decodePairs (encodePairs l) = some l := by
  simp [decodePairs, encodePairs, decodePairList_map_encodePair]

theorem methodOfStr_strOfMethod (m : Method) :
    methodOfStr (strOfMethod m) = some m := by
  cases m <;> decide

/-- C1: round-trip stability of the persisted finding record — loading a saved
`FuzzResult` gives back the record exactly, so rebuilding the request from the
loaded record is byte-identical to building it from the original payload. -/
theorem c1_save_load_rebuild_lossless (r : FuzzResult) (url : Str)
    (fixed : List (Str × Str)) :
    loadResult (saveResult r) = some r ∧
      (loadResult (saveResult r)).map
          (fun r' => buildRequest url r'.path r'.method r'.payload fixed) =
        some (buildRequest url r.path r.method r.payload fixed) := by
  have hload : loadResult (saveResult r) = some r := by
    obtain ⟨p, m, pp, qp, hp, b⟩ := r
    simp [loadResult, saveResult, lookupField, keyPath, keyMethod,
      keyPathParams, keyQueryParams, keyHeaderParams, keyBody,
      methodOfStr_strOfMethod, decodePairs_encodePairs]
  exact ⟨hload, by rw [hload]; rfl⟩

/- ### The two subcommand arms of `main` -/

/-- A response from the transport: status code and body. -/
structure Response where
  status : Nat
  body : Str
deriving DecidableEq

/-- Configuration-level failures of the `run` arm. -/
inductive ConfigError where
  | invalidUrl
  | unreadableSpec
  | unparseableSpec
deriving DecidableEq

/-- Process exit code of `main`: an `anyhow` error propagated out of `main`
exits non-zero, a normal return exits with the returned code. -/
def processExitCode : Except ConfigError Nat → Nat
  | .error _ => 1
  | .ok c => c

/-- Embedding of the `Run` arm of `main` (src/main.rs lines 135-154).
`Url::from_str` (url crate), `fs::read_to_string` and `serde_yaml::from_str`
are external collaborators, abstracted as parameters; URL parsing happens
during argument parsing via `UrlWithTrailingSlash::from_str`, before the arm
body runs. `Fuzzer::run` (fuzzer.rs, not under src/) is abstracted as a
function returning the requests it issued together with its exit code. The
result pairs the list of requests actually issued with either a configuration
error or the fuzzer's exit code. -/
def runSubcommand {U Spec Req : Type} (urlParse : Str → Option U)
    (urlArg : Str) (readSpec : Option Str) (parseSpec : Str → Option Spec)
    (fuzzerRun : Spec → U → List Req × Nat) :
    List Req × Except ConfigError Nat :=
  match urlWithTrailingSlash urlParse urlArg with
  | none => ([], .error .invalidUrl)
  | some url =>
      match readSpec with
      | none => ([], .error .unreadableSpec)
      | some content =>
          match parseSpec content with
          | none => ([], .error .unparseableSpec)
          | some spec =>
              let out := fuzzerRun spec url
              (out.1, .ok out.2)

/-- Embedding of the `Resend` arm of `main` (src/main.rs lines 156-170).
Reading the result file and parsing it with serde_json are modelled by an
optional stored JSON document and `loadResult`; `Fuzzer::send_request`
(fuzzer.rs, not under src/) is modelled from the spec as building the recorded
request and handing it to the transport. On success the arm reports the
response status and body and returns exit code `0` (`ExitCode::SUCCESS`). -/
def resendSubcommand (stored : Option Json) (url : Str)
    (hdrs : List (Str × Str)) (transport : Request → Option Response) :
    Option (Nat × Str × Nat) :=
  match stored with
  | none => none
  | some j =>
      match loadResult j with
      | none => none
      | some res =>
          match transport (buildRequest url res.path res.method res.payload hdrs) with
          | none => none
          | some resp => some (resp.status, resp.body, 0)

/-- Modelled from the spec (§4.3): classification — "response status is
checked against the ignore set; any unmatched code is a finding". -/
def isFinding (ignored : List Nat) (status : Nat) : Bool :=
  !(ignored.contains status)

/-- C2: if the specification file is unreadable or unparseable, or the base
URL is invalid, the run aborts with a configuration error before any trial
executes — no request is issued — and the process exit code is non-zero. -/
theorem c2_config_failure_aborts_before_any_request {U Spec Req : Type}
    (urlParse : Str → Option U) (urlArg : Str) (readSpec : Option Str)
    (parseSpec : Str → Option Spec) (fuzzerRun : Spec → U → List Req × Nat)
    (h : urlWithTrailingSlash urlParse urlArg = none ∨ readSpec = none ∨
      ∀ content, readSpec = some content → parseSpec content = none) :
    (runSubcommand urlParse urlArg readSpec parseSpec fuzzerRun).1 = [] ∧
      (∃ e, (runSubcommand urlParse urlArg readSpec parseSpec fuzzerRun).2 =
        .error e) ∧
      processExitCode
        (runSubcommand urlParse urlArg readSpec parseSpec fuzzerRun).2 ≠ 0 := by
  rcases h with hurl | hread | hparse
  · simp [runSubcommand, hurl, processExitCode]
  · cases hu : urlWithTrailingSlash urlParse urlArg with
    | none => simp [runSubcommand, hu, processExitCode]
    | some url => simp [runSubcommand, hu, hread, processExitCode]
  · cases hu : urlWithTrailingSlash urlParse urlArg with
    | none => simp [runSubcommand, hu, processExitCode]
    | some url =>
        cases hr : readSpec with
        | none => simp [runSubcommand, hu, hr, processExitCode]
        | some content =>
            simp [runSubcommand, hu, hr, hparse content hr, processExitCode]

/-- Witness for C2: an unreadable specification file aborts the run with no
request issued and a non-zero exit. -/
theorem c2_config_failure_aborts_before_any_request_witness :
    (runSubcommand (fun s => some s) ['u'] none (fun _ => some ())
        (fun _ _ => (([] : List Nat), 0))).1 = [] ∧
      (∃ e, (runSubcommand (fun s => some s) ['u'] none (fun _ => some ())
        (fun _ _ => (([] : List Nat), 0))).2 = .error e) ∧
      processExitCode (runSubcommand (fun s => some s) ['u'] none
        (fun _ => some ()) (fun _ _ => (([] : List Nat), 0))).2 ≠ 0 :=
  c2_config_failure_aborts_before_any_request (fun s => some s) ['u'] none
    (fun _ => some ()) (fun _ _ => (([] : List Nat), 0)) (Or.inr (Or.inl rfl))

/-- C8: the replay entry point, given a stored `FuzzResult`, a base URL and
headers, hands the transport exactly the request rebuilt from the file's path,
method and payload combined with the caller's URL and headers, and reports the
resulting response status and body. -/
theorem c8_resend_reissues_recorded_request (j : Json) (res : FuzzResult)
    (url : Str) (hdrs : List (Str × Str))
    (transport : Request → Option Response)
    (hload : loadResult j = some res) :
    resendSubcommand (some j) url hdrs transport =
      (transport (buildRequest url res.path res.method res.payload hdrs)).map
        (fun resp => (resp.status, resp.body, 0)) := by
  simp only [resendSubcommand, hload]
  cases transport (buildRequest url res.path res.method res.payload hdrs) <;> rfl

/-- Witness for C8 at a concrete stored record and a transport answering
status 500. -/
theorem c8_resend_reissues_recorded_request_witness :
    resendSubcommand (some (saveResult ⟨['/', 'x'], .get, ⟨[], [], [], []⟩⟩))
        ['u'] [] (fun _ => some ⟨500, ['o', 'k']⟩) =
      ((fun _ : Request => some (⟨500, ['o', 'k']⟩ : Response))
          (buildRequest ['u'] (['/', 'x'] : Str) .get ⟨[], [], [], []⟩ [])).map
        (fun resp => (resp.status, resp.body, 0)) :=
  c8_resend_reissues_recorded_request
    (saveResult ⟨['/', 'x'], .get, ⟨[], [], [], []⟩⟩)
    ⟨['/', 'x'], .get, ⟨[], [], [], []⟩⟩ ['u'] []
    (fun _ => some ⟨500, ['o', 'k']⟩) (by decide)

/-- C10: the resend arm returns exit code `0` (`ExitCode::SUCCESS`) whenever
reading, parsing and sending succeed, whatever the response status is — the
status is reported, never classified. -/
theorem c10_resend_exits_success_regardless_of_status (j : Json)
    (res : FuzzResult) (url : Str) (hdrs : List (Str × Str))
    (transport : Request → Option Response) (resp : Response)
    (hload : loadResult j = some res)
    (hsend : transport (buildRequest url res.path res.method res.payload hdrs) =
      some resp) :
    resendSubcommand (some j) url hdrs transport =
      some (resp.status, resp.body, 0) := by
  simp only [resendSubcommand, hload, hsend]

/-- Witness for C10: a response with status 500 — a finding for the run arm
under ignore list `[404]` — still exits with success code 0 when resent. -/
theorem c10_resend_exits_success_regardless_of_status_witness :
    isFinding [404] 500 = true ∧
      resendSubcommand (some (saveResult ⟨['/', 'x'], .get, ⟨[], [], [], []⟩⟩))
          ['u'] [] (fun _ => some ⟨500, ['o', 'k']⟩) =
        some (500, ['o', 'k'], 0) :=
  ⟨by decide,
    c10_resend_exits_success_regardless_of_status
      (saveResult ⟨['/', 'x'], .get, ⟨[], [], [], []⟩⟩)
      ⟨['/', 'x'], .get, ⟨[], [], [], []⟩⟩ ['u'] []
      (fun _ => some ⟨500, ['o', 'k']⟩) ⟨500, ['o', 'k']⟩ (by decide) rfl⟩

/- ### The execution engine's trial loop -/

/-- Modelled from the spec: the ExecutionEngine (fuzzer.rs `Fuzzer::run`, not
under src/) — "for each operation, run trials sequentially up to the
configured maximum; each trial samples fresh values, builds a request, sends
it"; `maxCount` is `RunArgs::max_test_case_count` (src/main.rs lines
53-56). -/
def trialsForOperation {Op Req : Type} (maxCount : Nat) (op : Op)
    (mkRequest : Op → Nat → Req) : List Req :=
  (List.range maxCount).map (mkRequest op)

/-- Modelled from the spec: the full operation × trial loop — operations are
enumerated once and processed sequentially, each contributing its own trial
sequence. -/
def runAllOperations {Op Req : Type} (ops : List Op) (maxCount : Nat)
    (mkRequest : Op → Nat → Req) : List Req :=
  ops.flatMap (fun op => trialsForOperation maxCount op mkRequest)

/-- C3: with maximum trial count `N` and `K` enumerated operations, the engine
issues at most `N × K` requests in total, and no single operation runs more
than `N` trials. -/
theorem c3_request_budget {Op Req : Type} (ops : List Op) (maxCount : Nat)
    (mkRequest : Op → Nat → Req) :
    (runAllOperations ops maxCount mkRequest).length ≤
        maxCount * ops.length ∧
      ∀ op : Op, (trialsForOperation maxCount op mkRequest).length ≤ maxCount := by
  constructor
  · have hlen : (runAllOperations ops maxCount mkRequest).length =
        maxCount * ops.length := by
      induction ops with
      | nil => simp [runAllOperations]
      | cons op rest ih =>
          have hone : (trialsForOperation maxCount op mkRequest).length =
              maxCount := by
            simp [trialsForOperation]
          simp only [runAllOperations, List.flatMap_cons, List.length_append,
            List.length_cons] at ih ⊢
          rw [ih, hone]
          ring
    exact Nat.le_of_eq hlen
  · intro op
    simp [trialsForOperation]

/- ### The schema sampler -/

/-- Explicitly owned random source threaded through every sampling call
(spec §4.1: "drawing from an explicitly owned random source, never implicit
global state"). -/
structure Rand where
  seed : Nat
deriving DecidableEq

/-- One step of the linear congruential generator. -/
def randNext (r : Rand) : Nat × Rand :=
  let s := (r.seed * 1103515245 + 12345) % 2147483648
  (s, ⟨s⟩)

/-- Modelled from the spec (§3 SchemaNode): a resolved schema fragment — type
tag, numeric bounds, length bounds, properties with required flags,
alternative subschemas, and references into the resolved document
(arbitrary.rs is not under src/). -/
inductive SchemaNode where
  | nullS
  | boolS
  | intS (lo hi : Option Int)
  | strS (minLen maxLen : Nat)
  | arrS (maxItems : Nat) (item : SchemaNode)
  | objS (props : List (Str × Bool × SchemaNode))
  | oneOfS (alts : List SchemaNode)
  | refS (name : Str)

/-- The resolved schema graph: named schemas that `refS` nodes point back
into, allowing self-referential schemas. -/
abbrev SchemaGraph := List (Str × SchemaNode)

/-- A concrete sampled value (spec §3 SampledValue). -/
inductive Value where
  | nullV
  | boolV (b : Bool)
  | intV (i : Int)
  | strV (s : Str)
  | arrV (vs : List Value)
  | objV (fs : List (Str × Value))

/-- Modelled from the spec (§4.1): integer sampling — "uniform within
[minimum, maximum] when bounded; otherwise from a wide default range". -/
def sampleInt (lo hi : Option Int) (u : Nat) : Int :=
  match lo, hi with
  | some l, some h => if l ≤ h then l + (u : Int) % (h - l + 1) else l
  | some l, none => l + (u : Int) % 1000
  | none, some h => h - (u : Int) % 1000
  | none, none => ((u : Int) % 2001) - 1000

/-- A sampled string of the given length. -/
def mkSampleString (len : Nat) (u : Nat) : Str :=
  List.replicate len (Char.ofNat (97 + u % 26))

/-- Named schema lookup with decidable key equality. -/
def lookupSchema : SchemaGraph → Str → Option SchemaNode
  | [], _ => none
  | (k, n) :: rest, key => if k = key then some n else lookupSchema rest key

mutual

/-- Modelled from the spec (§4.1 SchemaSampler): produce one value for a
schema node.  The `depth` counter is threaded through every recursive call and
decremented on each descent; at depth `0` a terminal value is forced (spec:
"recursion guard: a depth counter threaded through every recursive call; at
the configured maximum depth, force a terminal value").  `fuel` is an explicit
bound on the recursion depth used to express termination: `none` means the
computation did not finish within `fuel` nested calls. -/
def sampleSchema (fuel : Nat) (g : SchemaGraph) (node : SchemaNode)
    (depth : Nat) (r : Rand) : Option (Value × Rand) :=
  match fuel with
  | 0 => none
  | fuel' + 1 =>
      match node with
      | .nullS => some (.nullV, r)
      | .boolS =>
          let (u, r') := randNext r
          some (.boolV (u % 2 = 0), r')
      | .intS lo hi =>
          let (u, r') := randNext r
          some (.intV (sampleInt lo hi u), r')
      | .strS minLen maxLen =>
          let (u, r') := randNext r
          let len := minLen +
            (if minLen ≤ maxLen then u % (maxLen - minLen + 1) else 0)
          some (.strV (mkSampleString len u), r')
      | .arrS maxItems item =>
          match depth with
          | 0 => some (.arrV [], r)
          | d + 1 =>
              let (u, r') := randNext r
              match sampleItems fuel' g item (u % (maxItems + 1)) d r' with
              | some (vs, r'') => some (.arrV vs, r'')
              | none => none
      | .objS props =>
          match depth with
          | 0 => some (.objV [], r)
          | d + 1 =>
              match sampleProps fuel' g props d r with
              | some (fs, r') => some (.objV fs, r')
              | none => none
      | .oneOfS alts =>
          match depth with
          | 0 => some (.nullV, r)
          | d + 1 =>
              let (u, r') := randNext r
              match alts[u % alts.length]? with
              | some alt => sampleSchema fuel' g alt d r'
              | none => some (.nullV, r')
      | .refS name =>
          match depth with
          | 0 => some (.nullV, r)
          | d + 1 =>
              match lookupSchema g name with
              | some target => sampleSchema fuel' g target d r
              | none => some (.nullV, r)
termination_by (fuel, 0)

/-- Sample `count` independent array items (spec §4.1: "each item sampled
independently"). -/
def sampleItems (fuel : Nat) (g : SchemaGraph) (item : SchemaNode)
    (count : Nat) (depth : Nat) (r : Rand) : Option (List Value × Rand) :=
  match count with
  | 0 => some ([], r)
  | c + 1 =>
      match sampleSchema fuel g item depth r with
      | some (v, r') =>
          match sampleItems fuel g item c depth r' with
          | some (vs, r'') => some (v :: vs, r'')
          | none => none
      | none => none
termination_by (fuel, count + 1)

/-- Sample the properties of an object: every required property is sampled,
optional properties are included with probability one half (spec §4.1). -/
def sampleProps (fuel : Nat) (g : SchemaGraph)
    (props : List (Str × Bool × SchemaNode)) (depth : Nat) (r : Rand) :
    Option (List (Str × Value) × Rand) :=
  match props with
  | [] => some ([], r)
  | (name, required, sch) :: rest =>
      let (u, r0) := randNext r
      if required || u % 2 = 0 then
        match sampleSchema fuel g sch depth r0 with
        | some (v, r1) =>
            match sampleProps fuel g rest depth r1 with
            | some (fs, r2) => some ((name, v) :: fs, r2)
            | none => none
        | none => none
      else
        match sampleProps fuel g rest depth r0 with
        | some (fs, r1) => some (fs, r1)
        | none => none
termination_by (fuel, props.length + 1)

end

/- ### Termination of the sampler -/

theorem sampleItems_isSome (fuel : Nat)
    (hP : ∀ (g : SchemaGraph) (node : SchemaNode) (depth : Nat) (r : Rand),
      depth < fuel → (sampleSchema fuel g node depth r).isSome = true)
    (g : SchemaGraph) (item : SchemaNode) (count depth : Nat) (r : Rand)
    (h : depth < fuel) :
    (sampleItems fuel g item count depth r).isSome = true := by
  induction count generalizing r with
  | zero => simp [sampleItems]
  | succ c ih =>
      have h1 := hP g item depth r h
      match hs : sampleSchema fuel g item depth r with
      | some (v, r') =>
          have h2 := ih r'
          match hs2 : sampleItems fuel g item c depth r' with
          | some (vs, r'') => simp [sampleItems, hs, hs2]
          | none => rw [hs2] at h2; simp at h2
      | none => rw [hs] at h1; simp at h1

theorem sampleProps_isSome (fuel : Nat)
    (hP : ∀ (g : SchemaGraph) (node : SchemaNode) (depth : Nat) (r : Rand),
      depth < fuel → (sampleSchema fuel g node depth r).isSome = true)
    (g : SchemaGraph) (props : List (Str × Bool × SchemaNode)) (depth : Nat)
    (r : Rand) (h : depth < fuel) :
    (sampleProps fuel g props depth r).isSome = true := by
  induction props generalizing r with
  | nil => simp [sampleProps]
  | cons p rest ih =>
      obtain ⟨name, required, sch⟩ := p
      rcases hr : randNext r with ⟨u, r0⟩
      by_cases hreq : (required || decide (u % 2 = 0)) = true
      · have h1 := hP g sch depth r0 h
        match hs : sampleSchema fuel g sch depth r0 with
        | some (v, r1) =>
            have h2 := ih r1
            match hs2 : sampleProps fuel g rest depth r1 with
            | some (fs, r2) => simp [sampleProps, hr, hreq, hs, hs2]
            | none => rw [hs2] at h2; simp at h2
        | none => rw [hs] at h1; simp at h1
      · have h2 := ih r0
        match hs2 : sampleProps fuel g rest depth r0 with
        | some (fs, r1) => simp [sampleProps, hr, hreq, hs2]
        | none => rw [hs2] at h2; simp at h2

theorem sampleSchema_isSome (fuel : Nat) :
    ∀ (g : SchemaGraph) (node : SchemaNode) (depth : Nat) (r : Rand),
      depth < fuel → (sampleSchema fuel g node depth r).isSome = true := by
  induction fuel with
  | zero => intro g node depth r h; exact absurd h (Nat.not_lt_zero depth)
  | succ fuel ih =>
      intro g node depth r h
      match node with
      | .nullS => simp [sampleSchema]
      | .boolS => simp [sampleSchema]
      | .intS lo hi => simp [sampleSchema]
      | .strS mn mx => simp [sampleSchema]
      | .arrS maxItems item =>
          match depth with
          | 0 => simp [sampleSchema]
          | d + 1 =>
              have hd : d < fuel := Nat.lt_of_succ_lt_succ h
              rcases hr : randNext r with ⟨u, r'⟩
              have hitems := sampleItems_isSome fuel ih g item
                (u % (maxItems + 1)) d r' hd
              match hs : sampleItems fuel g item (u % (maxItems + 1)) d r' with
              | some (vs, r'') => simp [sampleSchema, hr, hs]
              | none => rw [hs] at hitems; simp at hitems
      | .objS props =>
          match depth with
          | 0 => simp [sampleSchema]
          | d + 1 =>
              have hd : d < fuel := Nat.lt_of_succ_lt_succ h
              have hprops := sampleProps_isSome fuel ih g props d r hd
              match hs : sampleProps fuel g props d r with
              | some (fs, r') => simp [sampleSchema, hs]
              | none => rw [hs] at hprops; simp at hprops
      | .oneOfS alts =>
          match depth with
          | 0 => simp [sampleSchema]
          | d + 1 =>
              have hd : d < fuel := Nat.lt_of_succ_lt_succ h
              rcases hr : randNext r with ⟨u, r'⟩
              match ha : alts[u % alts.length]? with
              | some alt =>
                  have := ih g alt d r' hd
                  simp [sampleSchema, hr, ha]
                  exact this
              | none => simp [sampleSchema, hr, ha]
      | .refS name =>
          match depth with
          | 0 => simp [sampleSchema]
          | d + 1 =>
              have hd : d < fuel := Nat.lt_of_succ_lt_succ h
              match hl : lookupSchema g name with
              | some target =>
                  have := ih g target d r hd
                  simp [sampleSchema, hl]
                  exact this
              | none => simp [sampleSchema, hl]

/-- C4: for every schema graph and node — self-referential ones included —
sampling terminates and returns a value: any recursion-depth budget strictly
larger than the depth counter suffices for the sampler to produce a value, and
at the maximum depth (counter `0`) a reference is forced to a terminal
value. -/
theorem c4_sampling_terminates (g : SchemaGraph) (node : SchemaNode)
    (depth fuel : Nat) (r : Rand) (h : depth < fuel) :
    (sampleSchema fuel g node depth r).isSome = true ∧
      ∀ name, sampleSchema fuel g (.refS name) 0 r = some (.nullV, r) := by
  refine ⟨sampleSchema_isSome fuel g node depth r h, ?_⟩
  intro name
  match fuel with
  | 0 => exact absurd h (Nat.not_lt_zero depth)
  | f + 1 => simp [sampleSchema]

/-- Witness for C4 on a directly self-referential schema graph
(`a` refers to `a`): sampling at depth counter 2 returns a value. -/
theorem c4_sampling_terminates_witness :
    2 < 3 ∧
      ((sampleSchema 3 [(['a'], SchemaNode.refS ['a'])]
          (SchemaNode.refS ['a']) 2 ⟨0⟩).isSome = true ∧
        ∀ name, sampleSchema 3 [(['a'], SchemaNode.refS ['a'])]
          (SchemaNode.refS name) 0 ⟨0⟩ = some (.nullV, ⟨0⟩)) :=
  ⟨by decide,
    c4_sampling_terminates [(['a'], SchemaNode.refS ['a'])]
      (SchemaNode.refS ['a']) 2 3 ⟨0⟩ (by decide)⟩

/- ### Numeric bounds of the sampler -/

theorem sampleInt_bounds (lo hi : Int) (u : Nat) (hlh : lo ≤ hi) :
    lo ≤ sampleInt (some lo) (some hi) u ∧
      sampleInt (some lo) (some hi) u ≤ hi := by
  simp only [sampleInt, if_pos hlh]
  have h1 := Int.emod_nonneg (u : Int) (by omega : hi - lo + 1 ≠ 0)
  have h2 := Int.emod_lt_of_pos (u : Int) (by omega : (0 : Int) < hi - lo + 1)
  omega

/-- C5: every value the sampler produces for an integer schema with declared
bounds `lo ≤ hi` is an integer `i` with `lo ≤ i ≤ hi`. -/
theorem c5_sampled_int_within_bounds (fuel : Nat) (g : SchemaGraph)
    (lo hi : Int) (depth : Nat) (r : Rand) (v : Value) (r' : Rand)
    (hlh : lo ≤ hi)
    (h : sampleSchema (fuel + 1) g (.intS (some lo) (some hi)) depth r =
      some (v, r')) :
    ∃ i, v = .intV i ∧ lo ≤ i ∧ i ≤ hi := by
  rcases hr : randNext r with ⟨u, r0⟩
  simp [sampleSchema, hr] at h
  obtain ⟨h1, h2⟩ := sampleInt_bounds lo hi u hlh
  exact ⟨sampleInt (some lo) (some hi) u, h.1.symm, h1, h2⟩

/-- Witness for C5 at bounds `[0, 10]` and seed 0: the sampled value is 3,
inside the bounds. -/
theorem c5_sampled_int_within_bounds_witness :
    ∃ i, Value.intV 3 = Value.intV i ∧ (0 : Int) ≤ i ∧ i ≤ 10 :=
  c5_sampled_int_within_bounds 0 [] 0 10 0 ⟨0⟩ (.intV 3) ⟨12345⟩ (by decide)
    (by simp [sampleSchema, randNext, sampleInt])

end OpenapiFuzzer
